import Mathlib

/-!
Verification of the LibreDash core against its C sources.

The development shallowly embeds the two core components of the repository:

* `src/framebuffer.c` (mailbox negotiation and drawing primitives), and
* `src/dashboard.c` (dashboard model and per-element renderers).

Modelling conventions:

* `uint32_t` values are naturals; arithmetic that the C program performs in
  32-bit unsigned registers is reduced modulo `U32 = 2 ^ 32` exactly where the
  C expression wraps.
* The pixel buffer is a total function from word index to stored color; the
  C code addresses it as `buffer[y * (pitch / 4) + x]`, computed in `uint32_t`.
* `float` quantities (element value, min, max) are embedded as exact rationals.
  Division by zero follows IEEE-754: it yields an infinity or NaN, modelled by
  the `FloatVal` carrier below, and NaN compares false under `<`.  The C float
  literals `0.6f` and `0.8f` are idealised as `3/5` and `4/5`.
* The firmware side of the mailbox exchange is an uninterpreted function from
  the request buffer to the response buffer; `mailbox_call` succeeds exactly
  when word 1 of the response equals the acknowledgement constant, as in the
  C code.
-/

def U32 : ℕ := 4294967296

/-- Framebuffer handle: negotiated width and height in pixels, pitch in bytes
per row, and the pixel store (word index to packed color). -/
@[ext]
structure framebuffer_t where
  width : ℕ
  height : ℕ
  pitch : ℕ
  buffer : ℕ → ℕ

/-- Unchecked store of `color` at word index `y * (pitch / 4) + x`, the index
being computed in 32-bit unsigned arithmetic.  This is the raw buffer write
that both `fb_clear` and `fb_draw_pixel` perform. -/
def fb_write (fb : framebuffer_t) (x y color : ℕ) : framebuffer_t :=
  { fb with buffer := fun i => if i = (y * (fb.pitch / 4) + x) % U32 then color else fb.buffer i }

/-- Clipped pixel write: returns the framebuffer unchanged when
`x >= width` or `y >= height`, otherwise stores `color` at
`buffer[y * (pitch / 4) + x]`. -/
def fb_draw_pixel (fb : framebuffer_t) (x y color : ℕ) : framebuffer_t :=
  if fb.width ≤ x ∨ fb.height ≤ y then fb else fb_write fb x y color

/-- Sequence of raw buffer writes, one per coordinate pair, in list order. -/
def write_pixels (fb : framebuffer_t) (ps : List (ℕ × ℕ)) (color : ℕ) : framebuffer_t :=
  ps.foldl (fun acc p => fb_write acc p.1 p.2 color) fb

/-- Sequence of clipped pixel writes, one per coordinate pair, in list order. -/
def draw_pixels (fb : framebuffer_t) (ps : List (ℕ × ℕ)) (color : ℕ) : framebuffer_t :=
  ps.foldl (fun acc p => fb_draw_pixel acc p.1 p.2 color) fb

/-- Coordinates visited by the `fb_clear` loops: row-major over the full
`width x height` region, y outer, x inner. -/
def clear_points (w h : ℕ) : List (ℕ × ℕ) :=
  (List.range h).flatMap (fun y => (List.range w).map (fun x => (x, y)))

/-- Clear writes `color` to every pixel of the `width x height` region through
the raw (unclipped) buffer store, exactly as the C loops do. -/
def fb_clear (fb : framebuffer_t) (color : ℕ) : framebuffer_t :=
  write_pixels fb (clear_points fb.width fb.height) color

/-- Coordinates visited by `fb_draw_rect`: for each `i < w` the top pixel
`(x+i, y)` then the bottom pixel `(x+i, y+h-1)`, then for each `i < h` the left
pixel `(x, y+i)` then the right pixel `(x+w-1, y+i)`; all coordinate sums are
32-bit wrapping, and `+ (U32 - 1)` is the unsigned form of `- 1`. -/
def rect_points (x y w h : ℕ) : List (ℕ × ℕ) :=
  (List.range w).flatMap
    (fun i => [((x + i) % U32, y), ((x + i) % U32, (y + h + (U32 - 1)) % U32)]) ++
  (List.range h).flatMap
    (fun i => [(x, (y + i) % U32), ((x + w + (U32 - 1)) % U32, (y + i) % U32)])

/-- Outline rectangle: the four one-pixel-thick edges, each pixel via the
clipped `fb_draw_pixel`. -/
def fb_draw_rect (fb : framebuffer_t) (x y w h color : ℕ) : framebuffer_t :=
  draw_pixels fb (rect_points x y w h) color

/-- Coordinates visited by `fb_draw_filled_rect`: `(x+i, y+j)` for `j < h`
(outer) and `i < w` (inner), sums 32-bit wrapping. -/
def filled_rect_points (x y w h : ℕ) : List (ℕ × ℕ) :=
  (List.range h).flatMap (fun j => (List.range w).map (fun i => ((x + i) % U32, (y + j) % U32)))

/-- Filled rectangle: every pixel of the rectangle via the clipped
`fb_draw_pixel`. -/
def fb_draw_filled_rect (fb : framebuffer_t) (x y w h color : ℕ) : framebuffer_t :=
  draw_pixels fb (filled_rect_points x y w h) color

/-- Abbreviation for reading back the pixel the C code addresses as
`buffer[y * (pitch / 4) + x]`. -/
def pixelAt (fb : framebuffer_t) (x y : ℕ) : ℕ :=
  fb.buffer ((y * (fb.pitch / 4) + x) % U32)

-- Color constants from framebuffer.h: RGB r g b = (r <<< 16) ||| (g <<< 8) ||| b.

def COLOR_BLACK : ℕ := 0
def COLOR_WHITE : ℕ := 16777215
def COLOR_RED : ℕ := 16711680
def COLOR_GREEN : ℕ := 65280
def COLOR_BLUE : ℕ := 255
def COLOR_YELLOW : ℕ := 16776960
def COLOR_CYAN : ℕ := 65535
def COLOR_MAGENTA : ℕ := 16711935
def COLOR_GRAY : ℕ := 8421504

-- Sanity checks of the embedding on tiny inputs.
example : clear_points 2 2 = [(0, 0), (1, 0), (0, 1), (1, 1)] := by decide
example : (fb_draw_pixel ⟨4, 3, 16, fun _ => 0⟩ 3 2 9).buffer 11 = 9 := by decide
example : fb_draw_pixel ⟨4, 3, 16, fun _ => 0⟩ 4 0 9 = ⟨4, 3, 16, fun _ => 0⟩ := by
  simp [fb_draw_pixel]

/-! ## Dashboard data model (dashboard.c / dashboard.h) -/

/-- Element kinds of the tagged union in dashboard.h. -/
inductive dash_element_type where
  | DASH_ELEMENT_GAUGE
  | DASH_ELEMENT_LABEL
  | DASH_ELEMENT_VALUE
  | DASH_ELEMENT_GRAPH
deriving DecidableEq

export dash_element_type (DASH_ELEMENT_GAUGE DASH_ELEMENT_LABEL DASH_ELEMENT_VALUE DASH_ELEMENT_GRAPH)

/-- Dashboard element: geometry and color are `uint32_t` (naturals here),
value, min and max are `float` (exact rationals here). -/
structure dash_element_t where
  type : dash_element_type
  x : ℕ
  y : ℕ
  width : ℕ
  height : ℕ
  color : ℕ
  value : ℚ
  min_value : ℚ
  max_value : ℚ
deriving DecidableEq

/-- Result carrier for the float computations of the renderers.  A value is a
finite rational or one of the IEEE-754 special values the C float division can
produce. -/
inductive FloatVal where
  | fin (q : ℚ)
  | posInf
  | negInf
  | nan
deriving DecidableEq

/-- Float division as the C expression performs it: a finite quotient when the
divisor is nonzero (idealised as exact), otherwise the IEEE-754 zero-division
results: positive infinity, negative infinity, or NaN for `0/0`. -/
def fdiv (a b : ℚ) : FloatVal :=
  if b = 0 then
    (if 0 < a then FloatVal.posInf else if a < 0 then FloatVal.negInf else FloatVal.nan)
  else FloatVal.fin (a / b)

/-- The two clamping ifs of `render_gauge`:
`if (p < 0) p = 0; if (p > 1) p = 1;` with IEEE comparison semantics, under
which every comparison against NaN is false. -/
def fclamp01 : FloatVal → FloatVal
  | FloatVal.fin q => if q < 0 then FloatVal.fin 0 else if 1 < q then FloatVal.fin 1 else FloatVal.fin q
  | FloatVal.posInf => FloatVal.fin 1
  | FloatVal.negInf => FloatVal.fin 0
  | FloatVal.nan => FloatVal.nan

/-- Numeric content of a finite `FloatVal` (zero on the special values). -/
def qval : FloatVal → ℚ
  | FloatVal.fin q => q
  | _ => 0

/-- The clamped fill fraction computed by `render_gauge`:
`clamp((value - min) / (max - min), 0, 1)` in C float arithmetic. -/
def clamp_percentage (value mn mx : ℚ) : FloatVal :=
  fclamp01 (fdiv (value - mn) (mx - mn))

/-- Fill width of a gauge: `(uint32_t)(percentage * (elem->width - 4))`.
The subtraction `elem->width - 4` is 32-bit wrapping; the float-to-uint32
conversion truncates toward zero, which on the clamped nonnegative value is
the floor.  Conversion of NaN to uint32 is undefined in C; it is modelled as 0
and no theorem relies on that case. -/
def gauge_fill_width (elem : dash_element_t) : ℕ :=
  match clamp_percentage elem.value elem.min_value elem.max_value with
  | FloatVal.fin q => (⌊q * (((elem.width + (U32 - 4)) % U32 : ℕ) : ℚ)⌋).toNat
  | _ => 0

/-- Gauge renderer: black background fill, outline in the element color, then
the inset fill rectangle at `(x+2, y+2)`, width `gauge_fill_width`, height
`height - 4`, drawn only when the fill width is positive. -/
def render_gauge (elem : dash_element_t) (fb : framebuffer_t) : framebuffer_t :=
  let fb1 := fb_draw_filled_rect fb elem.x elem.y elem.width elem.height COLOR_BLACK
  let fb2 := fb_draw_rect fb1 elem.x elem.y elem.width elem.height elem.color
  if 0 < gauge_fill_width elem then
    fb_draw_filled_rect fb2 ((elem.x + 2) % U32) ((elem.y + 2) % U32)
      (gauge_fill_width elem) ((elem.height + (U32 - 4)) % U32) elem.color
  else fb2

/-- Label renderer: black background fill and outline only. -/
def render_label (elem : dash_element_t) (fb : framebuffer_t) : framebuffer_t :=
  let fb1 := fb_draw_filled_rect fb elem.x elem.y elem.width elem.height COLOR_BLACK
  fb_draw_rect fb1 elem.x elem.y elem.width elem.height elem.color

/-- Indicator color of `render_value`: starts green, red when the raw
percentage exceeds `0.8f`, else yellow when it exceeds `0.6f`; comparisons
against the IEEE special values follow float semantics (NaN compares false,
so NaN stays green). -/
def value_indicator_color (elem : dash_element_t) : ℕ :=
  match fdiv (elem.value - elem.min_value) (elem.max_value - elem.min_value) with
  | FloatVal.fin q => if 4 / 5 < q then COLOR_RED else if 3 / 5 < q then COLOR_YELLOW else COLOR_GREEN
  | FloatVal.posInf => COLOR_RED
  | FloatVal.negInf => COLOR_GREEN
  | FloatVal.nan => COLOR_GREEN

/-- Value renderer: black background fill, outline in the element color, then
the fixed 20-pixel-wide indicator bar at `(x+5, y+5)`, height `height - 10`,
in the threshold color. -/
def render_value (elem : dash_element_t) (fb : framebuffer_t) : framebuffer_t :=
  let fb1 := fb_draw_filled_rect fb elem.x elem.y elem.width elem.height COLOR_BLACK
  let fb2 := fb_draw_rect fb1 elem.x elem.y elem.width elem.height elem.color
  fb_draw_filled_rect fb2 ((elem.x + 5) % U32) ((elem.y + 5) % U32)
    20 ((elem.height + (U32 - 10)) % U32) (value_indicator_color elem)

/-- Dot coordinates of grid line `i` of `render_graph`: `y_pos` is
`y + (height * i) / 4` in uint32 arithmetic, and x runs from `x + 2` in steps
of 4 while below `x + width - 2`.  (In the degenerate regime where the uint32
loop bound lies within 3 of `2^32` the C loop would wrap past zero and keep
running; no claim concerns that regime.) -/
def graph_line_points (x y w h i : ℕ) : List (ℕ × ℕ) :=
  let ypos := (y + ((h * i) % U32) / 4) % U32
  let start := (x + 2) % U32
  let stop := (x + w + (U32 - 2)) % U32
  (List.range ((stop - start + 3) / 4)).map (fun k => (start + 4 * k, ypos))

/-- Graph renderer: black background fill, outline, then three dotted grid
lines at the 1/4, 2/4, 3/4 height fractions (loop `i = 1..3`), gray dots every
4th pixel. -/
def render_graph (elem : dash_element_t) (fb : framebuffer_t) : framebuffer_t :=
  let fb1 := fb_draw_filled_rect fb elem.x elem.y elem.width elem.height COLOR_BLACK
  let fb2 := fb_draw_rect fb1 elem.x elem.y elem.width elem.height elem.color
  (List.range 3).foldl
    (fun acc i =>
      draw_pixels acc (graph_line_points elem.x elem.y elem.width elem.height (i + 1)) COLOR_GRAY)
    fb2

/-- The switch of `dashboard_render` over the element type. -/
def render_element (elem : dash_element_t) (fb : framebuffer_t) : framebuffer_t :=
  match elem.type with
  | DASH_ELEMENT_GAUGE => render_gauge elem fb
  | DASH_ELEMENT_LABEL => render_label elem fb
  | DASH_ELEMENT_VALUE => render_value elem fb
  | DASH_ELEMENT_GRAPH => render_graph elem fb

/-- Dashboard: display name and the ordered element sequence.  The C struct
holds a 32-entry array plus `element_count`; the list models exactly the first
`element_count` entries, so the capacity bound is `length < 32`. -/
structure dashboard_t where
  name : String
  elements : List dash_element_t
deriving DecidableEq

/-- Dashboard initialisation: copies at most 127 characters of the name and
empties the element sequence. -/
def dashboard_init (name : String) : dashboard_t :=
  { name := name.take 127, elements := [] }

/-- Element append: appends when fewer than 32 elements are stored, otherwise
returns the dashboard unchanged.  The C function returns `void`: there is no
status result, a rejected add is silent. -/
def dashboard_add_element (dash : dashboard_t) (element : dash_element_t) : dashboard_t :=
  if dash.elements.length < 32 then { dash with elements := dash.elements ++ [element] }
  else dash

/-- Value update: stores the new value into the element at `element_id` when
the index is below the element count, otherwise returns the dashboard
unchanged.  The C function returns `void`: an out-of-range index is silently
ignored. -/
def dashboard_update_value (dash : dashboard_t) (element_id : ℕ) (value : ℚ) : dashboard_t :=
  if h : element_id < dash.elements.length then
    { dash with
      elements := dash.elements.set element_id
        { dash.elements.get ⟨element_id, h⟩ with value := value } }
  else dash

/-- Full-frame render: clear the framebuffer to black, then render each element
in insertion order. -/
def dashboard_render (dash : dashboard_t) (fb : framebuffer_t) : framebuffer_t :=
  dash.elements.foldl (fun acc elem => render_element elem acc) (fb_clear fb COLOR_BLACK)

/-! ## Framebuffer negotiation (fb_init and mailbox_call) -/

/-- Mailbox property request that `fb_init` assembles: words 0..34 of the
36-word buffer (word 35 is never written).  Word 0 is the byte size `35*4`,
word 1 the request code 0, then the seven tag blocks and the end tag. -/
def fb_request (width height : ℕ) : List ℕ :=
  [140, 0,
   0x48003, 8, 8, width, height,
   0x48004, 8, 8, width, height,
   0x48009, 8, 8, 0, 0,
   0x48005, 4, 4, 32,
   0x48006, 4, 4, 1,
   0x40001, 8, 8, 4096, 0,
   0x40008, 4, 4, 0,
   0]

/-- The firmware acknowledgement constant checked by `mailbox_call`. -/
def mailbox_ack : ℕ := 0x80000000

/-- Success test of `mailbox_call`: after the identity-matched response has
been received, the call succeeds exactly when word 1 of the buffer equals the
acknowledgement constant.  The busy-wait polling and the discarding of
responses for other requests are hardware sequencing, abstracted away; the
firmware itself is an uninterpreted transformation of the buffer. -/
def mailbox_call_ok (resp : List ℕ) : Bool :=
  resp.getD 1 0 == mailbox_ack

/-- Handle populated by a successful negotiation.  The C buffer pointer is
modelled by its numeric address. -/
structure fb_handle where
  width : ℕ
  height : ℕ
  pitch : ℕ
  buffer_addr : ℕ
deriving DecidableEq

/-- Framebuffer negotiation: build the request, hand it to the firmware, fail
(`none`) when the call is not acknowledged; otherwise populate the handle with
the requested geometry, the pitch read back from response word 33, and the
buffer address of response word 28 with the two top bus-alias bits masked off
(`& 0x3FFFFFFF`, written as `% 2^30`). -/
def fb_init (firmware : List ℕ → List ℕ) (width height : ℕ) : Option fb_handle :=
  let resp := firmware (fb_request width height)
  if mailbox_call_ok resp then
    some { width := width, height := height,
           pitch := resp.getD 33 0,
           buffer_addr := resp.getD 28 0 % 0x40000000 }
  else none

-- Sanity checks of the model layer.
example : gauge_fill_width ⟨DASH_ELEMENT_GAUGE, 50, 50, 400, 60, COLOR_GREEN, 75, 0, 100⟩ = 297 := by
  simp [gauge_fill_width, clamp_percentage, fdiv, fclamp01, U32]
  norm_num
  decide
example : value_indicator_color ⟨DASH_ELEMENT_VALUE, 0, 0, 40, 20, COLOR_CYAN, 85, 0, 100⟩ = COLOR_RED := by
  simp [value_indicator_color, fdiv]
  norm_num
example : clamp_percentage (-15) (-15) 30 = FloatVal.fin 0 := by
  norm_num [clamp_percentage, fdiv, fclamp01]
example : (fb_request 640 480).length = 35 := by decide

/-! ## Dimension preservation -/

theorem fb_write_width (fb : framebuffer_t) (x y c : ℕ) : (fb_write fb x y c).width = fb.width := rfl

theorem fb_write_height (fb : framebuffer_t) (x y c : ℕ) : (fb_write fb x y c).height = fb.height := rfl

theorem fb_write_pitch (fb : framebuffer_t) (x y c : ℕ) : (fb_write fb x y c).pitch = fb.pitch := rfl

theorem fb_draw_pixel_width (fb : framebuffer_t) (x y c : ℕ) :
    (fb_draw_pixel fb x y c).width = fb.width := by
  unfold fb_draw_pixel; split <;> rfl

theorem fb_draw_pixel_height (fb : framebuffer_t) (x y c : ℕ) :
    (fb_draw_pixel fb x y c).height = fb.height := by
  unfold fb_draw_pixel; split <;> rfl

theorem fb_draw_pixel_pitch (fb : framebuffer_t) (x y c : ℕ) :
    (fb_draw_pixel fb x y c).pitch = fb.pitch := by
  unfold fb_draw_pixel; split <;> rfl

theorem write_pixels_width (fb : framebuffer_t) (ps : List (ℕ × ℕ)) (c : ℕ) :
    (write_pixels fb ps c).width = fb.width := by
  induction ps generalizing fb with
  | nil => rfl
  | cons p ps ih => simpa [write_pixels] using ih (fb_write fb p.1 p.2 c)

theorem write_pixels_height (fb : framebuffer_t) (ps : List (ℕ × ℕ)) (c : ℕ) :
    (write_pixels fb ps c).height = fb.height := by
  induction ps generalizing fb with
  | nil => rfl
  | cons p ps ih => simpa [write_pixels] using ih (fb_write fb p.1 p.2 c)

theorem write_pixels_pitch (fb : framebuffer_t) (ps : List (ℕ × ℕ)) (c : ℕ) :
    (write_pixels fb ps c).pitch = fb.pitch := by
  induction ps generalizing fb with
  | nil => rfl
  | cons p ps ih => simpa [write_pixels] using ih (fb_write fb p.1 p.2 c)

theorem draw_pixels_width (fb : framebuffer_t) (ps : List (ℕ × ℕ)) (c : ℕ) :
    (draw_pixels fb ps c).width = fb.width := by
  induction ps generalizing fb with
  | nil => rfl
  | cons p ps ih =>
    have := ih (fb_draw_pixel fb p.1 p.2 c)
    simpa [draw_pixels, fb_draw_pixel_width] using this

theorem draw_pixels_height (fb : framebuffer_t) (ps : List (ℕ × ℕ)) (c : ℕ) :
    (draw_pixels fb ps c).height = fb.height := by
  induction ps generalizing fb with
  | nil => rfl
  | cons p ps ih =>
    have := ih (fb_draw_pixel fb p.1 p.2 c)
    simpa [draw_pixels, fb_draw_pixel_height] using this

theorem draw_pixels_pitch (fb : framebuffer_t) (ps : List (ℕ × ℕ)) (c : ℕ) :
    (draw_pixels fb ps c).pitch = fb.pitch := by
  induction ps generalizing fb with
  | nil => rfl
  | cons p ps ih =>
    have := ih (fb_draw_pixel fb p.1 p.2 c)
    simpa [draw_pixels, fb_draw_pixel_pitch] using this

/-! ## Buffer characterisation of the write folds -/

theorem fb_write_buffer_self (fb : framebuffer_t) (x y c : ℕ) :
    (fb_write fb x y c).buffer ((y * (fb.pitch / 4) + x) % U32) = c := by
  simp [fb_write]

theorem fb_write_buffer_other (fb : framebuffer_t) (x y c idx : ℕ)
    (h : idx ≠ (y * (fb.pitch / 4) + x) % U32) :
    (fb_write fb x y c).buffer idx = fb.buffer idx := by
  simp [fb_write, h]

theorem fb_draw_pixel_buffer_self (fb : framebuffer_t) (x y c : ℕ)
    (hx : x < fb.width) (hy : y < fb.height) :
    (fb_draw_pixel fb x y c).buffer ((y * (fb.pitch / 4) + x) % U32) = c := by
  unfold fb_draw_pixel
  rw [if_neg (by omega)]
  exact fb_write_buffer_self fb x y c

theorem fb_draw_pixel_buffer_other (fb : framebuffer_t) (x y c idx : ℕ)
    (h : ¬(x < fb.width ∧ y < fb.height ∧ idx = (y * (fb.pitch / 4) + x) % U32)) :
    (fb_draw_pixel fb x y c).buffer idx = fb.buffer idx := by
  unfold fb_draw_pixel
  split
  · rfl
  · next hin =>
    have hx : x < fb.width := by omega
    have hy : y < fb.height := by omega
    have hne : idx ≠ (y * (fb.pitch / 4) + x) % U32 := fun he => h ⟨hx, hy, he⟩
    exact fb_write_buffer_other fb x y c idx hne

theorem write_pixels_buffer_miss (fb : framebuffer_t) (ps : List (ℕ × ℕ)) (c idx : ℕ)
    (h : ∀ p ∈ ps, idx ≠ (p.2 * (fb.pitch / 4) + p.1) % U32) :
    (write_pixels fb ps c).buffer idx = fb.buffer idx := by
  induction ps generalizing fb with
  | nil => rfl
  | cons p ps ih =>
    have hstep : write_pixels fb (p :: ps) c = write_pixels (fb_write fb p.1 p.2 c) ps c := rfl
    rw [hstep, ih (fb_write fb p.1 p.2 c)
      (by intro q hq; simpa [fb_write_pitch] using h q (List.mem_cons_of_mem p hq))]
    exact fb_write_buffer_other fb p.1 p.2 c idx (h p (List.mem_cons_self p ps))

theorem write_pixels_buffer_hit (fb : framebuffer_t) (ps : List (ℕ × ℕ)) (c idx : ℕ)
    (h : ∃ p ∈ ps, idx = (p.2 * (fb.pitch / 4) + p.1) % U32) :
    (write_pixels fb ps c).buffer idx = c := by
  induction ps generalizing fb with
  | nil => exact absurd h (by simp)
  | cons p ps ih =>
    have hstep : write_pixels fb (p :: ps) c = write_pixels (fb_write fb p.1 p.2 c) ps c := rfl
    rw [hstep]
    by_cases htail : ∃ q ∈ ps, idx = (q.2 * (fb.pitch / 4) + q.1) % U32
    · exact ih (fb_write fb p.1 p.2 c) (by simpa [fb_write_pitch] using htail)
    · push_neg at htail
      obtain ⟨q, hq, he⟩ := h
      rcases List.mem_cons.mp hq with hhead | hmem
      · subst hhead
        rw [write_pixels_buffer_miss _ ps c idx (by simpa [fb_write_pitch] using htail), he]
        exact fb_write_buffer_self fb q.1 q.2 c
      · exact absurd he (htail q hmem)

theorem draw_pixels_buffer_miss (fb : framebuffer_t) (ps : List (ℕ × ℕ)) (c idx : ℕ)
    (h : ∀ p ∈ ps, ¬(p.1 < fb.width ∧ p.2 < fb.height ∧ idx = (p.2 * (fb.pitch / 4) + p.1) % U32)) :
    (draw_pixels fb ps c).buffer idx = fb.buffer idx := by
  induction ps generalizing fb with
  | nil => rfl
  | cons p ps ih =>
    have hstep : draw_pixels fb (p :: ps) c = draw_pixels (fb_draw_pixel fb p.1 p.2 c) ps c := rfl
    rw [hstep, ih (fb_draw_pixel fb p.1 p.2 c)
      (by intro q hq
          simpa [fb_draw_pixel_width, fb_draw_pixel_height, fb_draw_pixel_pitch] using
            h q (List.mem_cons_of_mem p hq))]
    exact fb_draw_pixel_buffer_other fb p.1 p.2 c idx (h p (List.mem_cons_self p ps))

theorem draw_pixels_buffer_hit (fb : framebuffer_t) (ps : List (ℕ × ℕ)) (c idx : ℕ)
    (h : ∃ p ∈ ps, p.1 < fb.width ∧ p.2 < fb.height ∧ idx = (p.2 * (fb.pitch / 4) + p.1) % U32) :
    (draw_pixels fb ps c).buffer idx = c := by
  induction ps generalizing fb with
  | nil => exact absurd h (by simp)
  | cons p ps ih =>
    have hstep : draw_pixels fb (p :: ps) c = draw_pixels (fb_draw_pixel fb p.1 p.2 c) ps c := rfl
    rw [hstep]
    by_cases htail : ∃ q ∈ ps, q.1 < fb.width ∧ q.2 < fb.height ∧
        idx = (q.2 * (fb.pitch / 4) + q.1) % U32
    · exact ih (fb_draw_pixel fb p.1 p.2 c)
        (by simpa [fb_draw_pixel_width, fb_draw_pixel_height, fb_draw_pixel_pitch] using htail)
    · obtain ⟨q, hq, hqw, hqh, he⟩ := h
      rcases List.mem_cons.mp hq with hhead | hmem
      · subst hhead
        rw [draw_pixels_buffer_miss _ ps c idx
          (by intro r hr hcon
              exact htail ⟨r, hr, by
                simpa [fb_draw_pixel_width, fb_draw_pixel_height, fb_draw_pixel_pitch] using hcon⟩), he]
        exact fb_draw_pixel_buffer_self fb q.1 q.2 c hqw hqh
      · exact absurd ⟨q, hmem, hqw, hqh, he⟩ htail

/-! ## Membership in the point lists -/

theorem mem_clear_points {w h : ℕ} {p : ℕ × ℕ} :
    p ∈ clear_points w h ↔ p.1 < w ∧ p.2 < h := by
  obtain ⟨a, b⟩ := p
  simp [clear_points]
  constructor
  · rintro ⟨j, hj, i, hi, rfl, rfl⟩
    exact ⟨hi, hj⟩
  · rintro ⟨ha, hb⟩
    exact ⟨b, hb, a, ha, rfl, rfl⟩

theorem mem_filled_rect_points {x y w h : ℕ} {p : ℕ × ℕ} :
    p ∈ filled_rect_points x y w h ↔
      ∃ j, j < h ∧ ∃ i, i < w ∧ p = ((x + i) % U32, (y + j) % U32) := by
  simp [filled_rect_points]
  constructor
  · rintro ⟨j, hj, i, hi, he⟩
    exact ⟨j, hj, i, hi, he.symm⟩
  · rintro ⟨j, hj, i, hi, he⟩
    exact ⟨j, hj, i, hi, he.symm⟩

theorem mem_rect_points {x y w h : ℕ} {p : ℕ × ℕ} :
    p ∈ rect_points x y w h ↔
      ((∃ i, i < w ∧ (p = ((x + i) % U32, y) ∨ p = ((x + i) % U32, (y + h + (U32 - 1)) % U32))) ∨
       (∃ i, i < h ∧ (p = (x, (y + i) % U32) ∨ p = ((x + w + (U32 - 1)) % U32, (y + i) % U32)))) := by
  simp [rect_points]

/-! ## Pixel index arithmetic -/

theorem region_index_lt (P4 W H px py : ℕ) (hW : W ≤ P4) (hpx : px < W) (hpy : py < H)
    (hBig : H * P4 ≤ U32) : py * P4 + px < U32 := by
  have h1 : py * P4 + px < (py + 1) * P4 := by
    have : (py + 1) * P4 = py * P4 + P4 := by ring
    omega
  have h2 : (py + 1) * P4 ≤ H * P4 := Nat.mul_le_mul_right _ (by omega)
  omega

theorem region_index_inj (P4 W px py qx qy : ℕ) (hW : W ≤ P4)
    (hpx : px < W) (hqx : qx < W)
    (he : py * P4 + px = qy * P4 + qx) : px = qx ∧ py = qy := by
  have hP4 : 0 < P4 := lt_of_lt_of_le (Nat.lt_of_le_of_lt (Nat.zero_le px) hpx) hW
  have h1 : (py * P4 + px) % P4 = px := by
    rw [Nat.mul_comm py P4, Nat.mul_add_mod]; exact Nat.mod_eq_of_lt (lt_of_lt_of_le hpx hW)
  have h2 : (qy * P4 + qx) % P4 = qx := by
    rw [Nat.mul_comm qy P4, Nat.mul_add_mod]; exact Nat.mod_eq_of_lt (lt_of_lt_of_le hqx hW)
  have hx : px = qx := by rw [← h1, ← h2, he]
  have h3 : (py * P4 + px) / P4 = py := by
    rw [Nat.mul_comm py P4, Nat.mul_add_div hP4, Nat.div_eq_of_lt (lt_of_lt_of_le hpx hW)]
    omega
  have h4 : (qy * P4 + qx) / P4 = qy := by
    rw [Nat.mul_comm qy P4, Nat.mul_add_div hP4, Nat.div_eq_of_lt (lt_of_lt_of_le hqx hW)]
    omega
  have hy : py = qy := by rw [← h3, ← h4, he]
  exact ⟨hx, hy⟩

theorem region_index_inj_mod (P4 W H px py qx qy : ℕ) (hW : W ≤ P4)
    (hpx : px < W) (hpy : py < H) (hqx : qx < W) (hqy : qy < H) (hBig : H * P4 ≤ U32)
    (he : (py * P4 + px) % U32 = (qy * P4 + qx) % U32) : px = qx ∧ py = qy := by
  rw [Nat.mod_eq_of_lt (region_index_lt P4 W H px py hW hpx hpy hBig),
      Nat.mod_eq_of_lt (region_index_lt P4 W H qx qy hW hqx hqy hBig)] at he
  exact region_index_inj P4 W px py qx qy hW hpx hqx he

/-- Unsigned 32-bit subtraction of a small constant: for `b ≤ a < 2^32`,
adding `2^32 - b` and wrapping is ordinary subtraction. -/
theorem u32_sub_small (a b : ℕ) (hb : b ≤ a) (ha : a < U32) :
    (a + (U32 - b)) % U32 = a - b := by
  have hbU : b ≤ U32 := le_trans hb (le_of_lt ha)
  have h1 : a + (U32 - b) = (a - b) + U32 := by omega
  rw [h1, Nat.add_mod_right]
  exact Nat.mod_eq_of_lt (by omega)

/-! ## Derived dimension lemmas for the concrete primitives -/

theorem fb_draw_filled_rect_width (fb : framebuffer_t) (x y w h c : ℕ) :
    (fb_draw_filled_rect fb x y w h c).width = fb.width := draw_pixels_width _ _ _

theorem fb_draw_filled_rect_height (fb : framebuffer_t) (x y w h c : ℕ) :
    (fb_draw_filled_rect fb x y w h c).height = fb.height := draw_pixels_height _ _ _

theorem fb_draw_filled_rect_pitch (fb : framebuffer_t) (x y w h c : ℕ) :
    (fb_draw_filled_rect fb x y w h c).pitch = fb.pitch := draw_pixels_pitch _ _ _

theorem fb_draw_rect_width (fb : framebuffer_t) (x y w h c : ℕ) :
    (fb_draw_rect fb x y w h c).width = fb.width := draw_pixels_width _ _ _

theorem fb_draw_rect_height (fb : framebuffer_t) (x y w h c : ℕ) :
    (fb_draw_rect fb x y w h c).height = fb.height := draw_pixels_height _ _ _

theorem fb_draw_rect_pitch (fb : framebuffer_t) (x y w h c : ℕ) :
    (fb_draw_rect fb x y w h c).pitch = fb.pitch := draw_pixels_pitch _ _ _

theorem fb_clear_width (fb : framebuffer_t) (c : ℕ) :
    (fb_clear fb c).width = fb.width := write_pixels_width _ _ _

theorem fb_clear_height (fb : framebuffer_t) (c : ℕ) :
    (fb_clear fb c).height = fb.height := write_pixels_height _ _ _

theorem fb_clear_pitch (fb : framebuffer_t) (c : ℕ) :
    (fb_clear fb c).pitch = fb.pitch := write_pixels_pitch _ _ _

/-! ## The clamped percentage and the gauge fill width -/

theorem clamp_percentage_eq_fin (value mn mx : ℚ) (hne : mx ≠ mn) :
    clamp_percentage value mn mx =
      FloatVal.fin (if (value - mn) / (mx - mn) < 0 then 0
        else if 1 < (value - mn) / (mx - mn) then 1 else (value - mn) / (mx - mn)) := by
  unfold clamp_percentage fdiv
  rw [if_neg (sub_ne_zero.mpr hne)]
  simp only [fclamp01]
  split_ifs <;> rfl

theorem clamp_percentage_bounds (value mn mx : ℚ) (hne : mx ≠ mn) :
    0 ≤ qval (clamp_percentage value mn mx) ∧ qval (clamp_percentage value mn mx) ≤ 1 := by
  rw [clamp_percentage_eq_fin value mn mx hne]
  unfold qval
  split_ifs with h1 h2
  · norm_num
  · norm_num
  · exact ⟨le_of_not_lt h1, le_of_not_lt h2⟩

theorem gauge_fill_width_eq (elem : dash_element_t) (hne : elem.max_value ≠ elem.min_value)
    (hw : 4 ≤ elem.width) (hwU : elem.width < U32) :
    gauge_fill_width elem =
      (⌊qval (clamp_percentage elem.value elem.min_value elem.max_value) *
        ((elem.width - 4 : ℕ) : ℚ)⌋).toNat := by
  unfold gauge_fill_width
  rw [u32_sub_small elem.width 4 hw hwU]
  obtain ⟨q, hq⟩ : ∃ q, clamp_percentage elem.value elem.min_value elem.max_value =
      FloatVal.fin q := ⟨_, clamp_percentage_eq_fin _ _ _ hne⟩
  rw [hq]
  rfl

theorem gauge_fill_width_le (elem : dash_element_t) (hne : elem.max_value ≠ elem.min_value)
    (hw : 4 ≤ elem.width) (hwU : elem.width < U32) :
    gauge_fill_width elem ≤ elem.width - 4 := by
  rw [gauge_fill_width_eq elem hne hw hwU]
  obtain ⟨h0, h1⟩ := clamp_percentage_bounds elem.value elem.min_value elem.max_value hne
  have hcast : (0 : ℚ) ≤ ((elem.width - 4 : ℕ) : ℚ) := Nat.cast_nonneg _
  have hmul : qval (clamp_percentage elem.value elem.min_value elem.max_value) *
      ((elem.width - 4 : ℕ) : ℚ) ≤ ((elem.width - 4 : ℕ) : ℚ) := by nlinarith
  have hfl : ⌊qval (clamp_percentage elem.value elem.min_value elem.max_value) *
      ((elem.width - 4 : ℕ) : ℚ)⌋ ≤ ((elem.width - 4 : ℕ) : ℤ) := by
    calc ⌊qval (clamp_percentage elem.value elem.min_value elem.max_value) *
        ((elem.width - 4 : ℕ) : ℚ)⌋ ≤ ⌊((elem.width - 4 : ℕ) : ℚ)⌋ := Int.floor_le_floor hmul
      _ = ((elem.width - 4 : ℕ) : ℤ) := Int.floor_natCast _
  exact Int.toNat_le.mpr hfl

/-! ## Pixel-level characterisation of the rectangle primitives -/

theorem pixelAt_filled_rect (fb : framebuffer_t) (rx ry rw rh c px py : ℕ)
    (hWP : fb.width ≤ fb.pitch / 4) (hBig : fb.height * (fb.pitch / 4) ≤ U32)
    (hWU : fb.width < U32) (hHU : fb.height < U32)
    (hrx : rx + rw ≤ fb.width) (hry : ry + rh ≤ fb.height)
    (hx : px < fb.width) (hy : py < fb.height) :
    pixelAt (fb_draw_filled_rect fb rx ry rw rh c) px py =
      if rx ≤ px ∧ px < rx + rw ∧ ry ≤ py ∧ py < ry + rh then c else pixelAt fb px py := by
  unfold pixelAt
  rw [fb_draw_filled_rect_pitch]
  by_cases hin : rx ≤ px ∧ px < rx + rw ∧ ry ≤ py ∧ py < ry + rh
  · rw [if_pos hin]
    apply draw_pixels_buffer_hit
    have e1 : (rx + (px - rx)) % U32 = px := by
      rw [(by omega : rx + (px - rx) = px)]; exact Nat.mod_eq_of_lt (by omega)
    have e2 : (ry + (py - ry)) % U32 = py := by
      rw [(by omega : ry + (py - ry) = py)]; exact Nat.mod_eq_of_lt (by omega)
    refine ⟨(px, py), ?_, hx, hy, rfl⟩
    exact mem_filled_rect_points.mpr ⟨py - ry, by omega, px - rx, by omega,
      by rw [Prod.mk.injEq]; exact ⟨e1.symm, e2.symm⟩⟩
  · rw [if_neg hin]
    apply draw_pixels_buffer_miss
    intro p hp hcon
    obtain ⟨j, hj, i, hi, hpe⟩ := mem_filled_rect_points.mp hp
    subst hpe
    have e1 : (rx + i) % U32 = rx + i := Nat.mod_eq_of_lt (by omega)
    have e2 : (ry + j) % U32 = ry + j := Nat.mod_eq_of_lt (by omega)
    rw [e1, e2] at hcon
    obtain ⟨hc1, hc2, hc3⟩ := hcon
    obtain ⟨hpx, hpy⟩ := region_index_inj_mod (fb.pitch / 4) fb.width fb.height px py
      (rx + i) (ry + j) hWP hx hy (by omega) (by omega) hBig hc3
    exact hin ⟨by omega, by omega, by omega, by omega⟩

theorem pixelAt_draw_rect (fb : framebuffer_t) (rx ry rw rh c px py : ℕ)
    (hWP : fb.width ≤ fb.pitch / 4) (hBig : fb.height * (fb.pitch / 4) ≤ U32)
    (hWU : fb.width < U32) (hHU : fb.height < U32)
    (hrx : rx + rw ≤ fb.width) (hry : ry + rh ≤ fb.height)
    (hrw : 0 < rw) (hrh : 0 < rh)
    (hx : px < fb.width) (hy : py < fb.height) :
    pixelAt (fb_draw_rect fb rx ry rw rh c) px py =
      if (rx ≤ px ∧ px < rx + rw ∧ (py = ry ∨ py = ry + rh - 1)) ∨
         (ry ≤ py ∧ py < ry + rh ∧ (px = rx ∨ px = rx + rw - 1)) then c
      else pixelAt fb px py := by
  have eb : (ry + rh + (U32 - 1)) % U32 = ry + rh - 1 :=
    u32_sub_small (ry + rh) 1 (by omega) (by omega)
  have er : (rx + rw + (U32 - 1)) % U32 = rx + rw - 1 :=
    u32_sub_small (rx + rw) 1 (by omega) (by omega)
  unfold pixelAt
  rw [fb_draw_rect_pitch]
  by_cases hin : (rx ≤ px ∧ px < rx + rw ∧ (py = ry ∨ py = ry + rh - 1)) ∨
      (ry ≤ py ∧ py < ry + rh ∧ (px = rx ∨ px = rx + rw - 1))
  · rw [if_pos hin]
    apply draw_pixels_buffer_hit
    refine ⟨(px, py), ?_, hx, hy, rfl⟩
    apply mem_rect_points.mpr
    rcases hin with ⟨hpx1, hpx2, hpy⟩ | ⟨hpy1, hpy2, hpx⟩
    · refine Or.inl ⟨px - rx, by omega, ?_⟩
      have e1 : (rx + (px - rx)) % U32 = px := by
        rw [(by omega : rx + (px - rx) = px)]; exact Nat.mod_eq_of_lt (by omega)
      rcases hpy with h | h
      · exact Or.inl (by rw [Prod.mk.injEq]; exact ⟨e1.symm, h⟩)
      · exact Or.inr (by rw [Prod.mk.injEq]; exact ⟨e1.symm, by rw [eb, ← h]⟩)
    · refine Or.inr ⟨py - ry, by omega, ?_⟩
      have e2 : (ry + (py - ry)) % U32 = py := by
        rw [(by omega : ry + (py - ry) = py)]; exact Nat.mod_eq_of_lt (by omega)
      rcases hpx with h | h
      · exact Or.inl (by rw [Prod.mk.injEq]; exact ⟨h, e2.symm⟩)
      · exact Or.inr (by rw [Prod.mk.injEq]; exact ⟨by rw [er, ← h], e2.symm⟩)
  · rw [if_neg hin]
    apply draw_pixels_buffer_miss
    intro p hp hcon
    rcases mem_rect_points.mp hp with ⟨i, hi, hpe | hpe⟩ | ⟨i, hi, hpe | hpe⟩
    · subst hpe
      have e1 : (rx + i) % U32 = rx + i := Nat.mod_eq_of_lt (by omega)
      rw [e1] at hcon
      obtain ⟨hc1, hc2, hc3⟩ := hcon
      obtain ⟨hpx, hpy⟩ := region_index_inj_mod (fb.pitch / 4) fb.width fb.height px py
        (rx + i) ry hWP hx hy (by omega) (by omega) hBig hc3
      exact hin (Or.inl ⟨by omega, by omega, Or.inl hpy⟩)
    · subst hpe
      have e1 : (rx + i) % U32 = rx + i := Nat.mod_eq_of_lt (by omega)
      rw [e1, eb] at hcon
      obtain ⟨hc1, hc2, hc3⟩ := hcon
      obtain ⟨hpx, hpy⟩ := region_index_inj_mod (fb.pitch / 4) fb.width fb.height px py
        (rx + i) (ry + rh - 1) hWP hx hy (by omega) (by omega) hBig hc3
      exact hin (Or.inl ⟨by omega, by omega, Or.inr hpy⟩)
    · subst hpe
      have e2 : (ry + i) % U32 = ry + i := Nat.mod_eq_of_lt (by omega)
      rw [e2] at hcon
      obtain ⟨hc1, hc2, hc3⟩ := hcon
      obtain ⟨hpx, hpy⟩ := region_index_inj_mod (fb.pitch / 4) fb.width fb.height px py
        rx (ry + i) hWP hx hy (by omega) (by omega) hBig hc3
      exact hin (Or.inr ⟨by omega, by omega, Or.inl hpx⟩)
    · subst hpe
      have e2 : (ry + i) % U32 = ry + i := Nat.mod_eq_of_lt (by omega)
      rw [e2, er] at hcon
      obtain ⟨hc1, hc2, hc3⟩ := hcon
      obtain ⟨hpx, hpy⟩ := region_index_inj_mod (fb.pitch / 4) fb.width fb.height px py
        (rx + rw - 1) (ry + i) hWP hx hy (by omega) (by omega) hBig hc3
      exact hin (Or.inr ⟨by omega, by omega, Or.inr hpx⟩)

/-! ## C1: gauge rendering -/

/-- Claim C1 (amended): for a gauge with `max != min` drawn fully inside the
framebuffer, the rendered image consists of the outline in the element color
on all four edges, an inset fill of exactly `gauge_fill_width` pixels starting
at `(x+2, y+2)` with height `height - 4` in the element color, and black
interior elsewhere; the fill width equals the float-to-uint32 truncation
(floor) of `clamp((value-min)/(max-min), 0, 1) * (width - 4)`, so a fill width
of 0 paints no fill pixel at all. -/
theorem render_gauge_spec (elem : dash_element_t) (fb : framebuffer_t)
    (hne : elem.max_value ≠ elem.min_value)
    (hw : 4 ≤ elem.width) (hh : 4 ≤ elem.height)
    (hxw : elem.x + elem.width ≤ fb.width) (hyh : elem.y + elem.height ≤ fb.height)
    (hWP : fb.width ≤ fb.pitch / 4) (hBig : fb.height * (fb.pitch / 4) ≤ U32)
    (hWU : fb.width < U32) (hHU : fb.height < U32) :
    gauge_fill_width elem =
      (⌊qval (clamp_percentage elem.value elem.min_value elem.max_value) *
        ((elem.width - 4 : ℕ) : ℚ)⌋).toNat ∧
    gauge_fill_width elem ≤ elem.width - 4 ∧
    (∀ j, j < elem.height - 4 → ∀ i, i < gauge_fill_width elem →
      pixelAt (render_gauge elem fb) (elem.x + 2 + i) (elem.y + 2 + j) = elem.color) ∧
    (∀ j, j < elem.height - 4 → ∀ i, gauge_fill_width elem ≤ i → i < elem.width - 4 →
      pixelAt (render_gauge elem fb) (elem.x + 2 + i) (elem.y + 2 + j) = COLOR_BLACK) ∧
    (∀ i, i < elem.width →
      pixelAt (render_gauge elem fb) (elem.x + i) elem.y = elem.color ∧
      pixelAt (render_gauge elem fb) (elem.x + i) (elem.y + elem.height - 1) = elem.color) ∧
    (∀ j, j < elem.height →
      pixelAt (render_gauge elem fb) elem.x (elem.y + j) = elem.color ∧
      pixelAt (render_gauge elem fb) (elem.x + elem.width - 1) (elem.y + j) = elem.color) := by
  have hwlt : elem.width < U32 := by omega
  have hhlt : elem.height < U32 := by omega
  have hfwle := gauge_fill_width_le elem hne hw hwlt
  have hfweq := gauge_fill_width_eq elem hne hw hwlt
  have ex2 : (elem.x + 2) % U32 = elem.x + 2 := Nat.mod_eq_of_lt (by omega)
  have ey2 : (elem.y + 2) % U32 = elem.y + 2 := Nat.mod_eq_of_lt (by omega)
  have eh4 : (elem.height + (U32 - 4)) % U32 = elem.height - 4 := u32_sub_small _ 4 hh hhlt
  set fb1 := fb_draw_filled_rect fb elem.x elem.y elem.width elem.height COLOR_BLACK with hfb1
  set fb2 := fb_draw_rect fb1 elem.x elem.y elem.width elem.height elem.color with hfb2
  have h2W : fb2.width = fb.width := by
    rw [hfb2, fb_draw_rect_width, hfb1, fb_draw_filled_rect_width]
  have h2H : fb2.height = fb.height := by
    rw [hfb2, fb_draw_rect_height, hfb1, fb_draw_filled_rect_height]
  have h2P : fb2.pitch = fb.pitch := by
    rw [hfb2, fb_draw_rect_pitch, hfb1, fb_draw_filled_rect_pitch]
  have h1W : fb1.width = fb.width := by rw [hfb1, fb_draw_filled_rect_width]
  have h1H : fb1.height = fb.height := by rw [hfb1, fb_draw_filled_rect_height]
  have h1P : fb1.pitch = fb.pitch := by rw [hfb1, fb_draw_filled_rect_pitch]
  have hrg : render_gauge elem fb =
      if 0 < gauge_fill_width elem then
        fb_draw_filled_rect fb2 (elem.x + 2) (elem.y + 2) (gauge_fill_width elem)
          (elem.height - 4) elem.color
      else fb2 := by
    rw [← ex2, ← ey2, ← eh4]
    rfl
  refine ⟨hfweq, hfwle, ?_, ?_, ?_, ?_⟩
  · -- fill pixels carry the element color
    intro j hj i hi
    rw [hrg, if_pos (by omega : 0 < gauge_fill_width elem),
      pixelAt_filled_rect fb2 (elem.x + 2) (elem.y + 2) (gauge_fill_width elem)
        (elem.height - 4) elem.color (elem.x + 2 + i) (elem.y + 2 + j)
        (by rw [h2W, h2P]; exact hWP) (by rw [h2H, h2P]; exact hBig)
        (by rw [h2W]; exact hWU) (by rw [h2H]; exact hHU)
        (by rw [h2W]; omega) (by rw [h2H]; omega)
        (by rw [h2W]; omega) (by rw [h2H]; omega),
      if_pos (by omega)]
  · -- interior pixels beyond the fill are black
    intro j hj i hfwi hiw
    have hblack : pixelAt fb2 (elem.x + 2 + i) (elem.y + 2 + j) = COLOR_BLACK := by
      rw [hfb2,
        pixelAt_draw_rect fb1 elem.x elem.y elem.width elem.height elem.color
          (elem.x + 2 + i) (elem.y + 2 + j)
          (by rw [h1W, h1P]; exact hWP) (by rw [h1H, h1P]; exact hBig)
          (by rw [h1W]; exact hWU) (by rw [h1H]; exact hHU)
          (by rw [h1W]; omega) (by rw [h1H]; omega) (by omega) (by omega)
          (by rw [h1W]; omega) (by rw [h1H]; omega),
        if_neg (by rintro (⟨_, _, h | h⟩ | ⟨_, _, h | h⟩) <;> omega),
        hfb1,
        pixelAt_filled_rect fb elem.x elem.y elem.width elem.height COLOR_BLACK
          (elem.x + 2 + i) (elem.y + 2 + j)
          hWP hBig hWU hHU (by omega) (by omega) (by omega) (by omega),
        if_pos (by omega)]
    by_cases hfw : 0 < gauge_fill_width elem
    · rw [hrg, if_pos hfw,
        pixelAt_filled_rect fb2 (elem.x + 2) (elem.y + 2) (gauge_fill_width elem)
          (elem.height - 4) elem.color (elem.x + 2 + i) (elem.y + 2 + j)
          (by rw [h2W, h2P]; exact hWP) (by rw [h2H, h2P]; exact hBig)
          (by rw [h2W]; exact hWU) (by rw [h2H]; exact hHU)
          (by rw [h2W]; omega) (by rw [h2H]; omega)
          (by rw [h2W]; omega) (by rw [h2H]; omega),
        if_neg (by omega)]
      exact hblack
    · rw [hrg, if_neg hfw]
      exact hblack
  · -- top and bottom edges carry the element color
    intro i hiw
    have htop : pixelAt fb2 (elem.x + i) elem.y = elem.color := by
      rw [hfb2,
        pixelAt_draw_rect fb1 elem.x elem.y elem.width elem.height elem.color
          (elem.x + i) elem.y
          (by rw [h1W, h1P]; exact hWP) (by rw [h1H, h1P]; exact hBig)
          (by rw [h1W]; exact hWU) (by rw [h1H]; exact hHU)
          (by rw [h1W]; omega) (by rw [h1H]; omega) (by omega) (by omega)
          (by rw [h1W]; omega) (by rw [h1H]; omega),
        if_pos (Or.inl ⟨by omega, by omega, Or.inl rfl⟩)]
    have hbot : pixelAt fb2 (elem.x + i) (elem.y + elem.height - 1) = elem.color := by
      rw [hfb2,
        pixelAt_draw_rect fb1 elem.x elem.y elem.width elem.height elem.color
          (elem.x + i) (elem.y + elem.height - 1)
          (by rw [h1W, h1P]; exact hWP) (by rw [h1H, h1P]; exact hBig)
          (by rw [h1W]; exact hWU) (by rw [h1H]; exact hHU)
          (by rw [h1W]; omega) (by rw [h1H]; omega) (by omega) (by omega)
          (by rw [h1W]; omega) (by rw [h1H]; omega),
        if_pos (Or.inl ⟨by omega, by omega, Or.inr (by omega)⟩)]
    constructor
    · by_cases hfw : 0 < gauge_fill_width elem
      · rw [hrg, if_pos hfw,
          pixelAt_filled_rect fb2 (elem.x + 2) (elem.y + 2) (gauge_fill_width elem)
            (elem.height - 4) elem.color (elem.x + i) elem.y
            (by rw [h2W, h2P]; exact hWP) (by rw [h2H, h2P]; exact hBig)
            (by rw [h2W]; exact hWU) (by rw [h2H]; exact hHU)
            (by rw [h2W]; omega) (by rw [h2H]; omega)
            (by rw [h2W]; omega) (by rw [h2H]; omega),
          if_neg (by omega)]
        exact htop
      · rw [hrg, if_neg hfw]; exact htop
    · by_cases hfw : 0 < gauge_fill_width elem
      · rw [hrg, if_pos hfw,
          pixelAt_filled_rect fb2 (elem.x + 2) (elem.y + 2) (gauge_fill_width elem)
            (elem.height - 4) elem.color (elem.x + i) (elem.y + elem.height - 1)
            (by rw [h2W, h2P]; exact hWP) (by rw [h2H, h2P]; exact hBig)
            (by rw [h2W]; exact hWU) (by rw [h2H]; exact hHU)
            (by rw [h2W]; omega) (by rw [h2H]; omega)
            (by rw [h2W]; omega) (by rw [h2H]; omega),
          if_neg (by omega)]
        exact hbot
      · rw [hrg, if_neg hfw]; exact hbot
  · -- left and right edges carry the element color
    intro j hjh
    have hleft : pixelAt fb2 elem.x (elem.y + j) = elem.color := by
      rw [hfb2,
        pixelAt_draw_rect fb1 elem.x elem.y elem.width elem.height elem.color
          elem.x (elem.y + j)
          (by rw [h1W, h1P]; exact hWP) (by rw [h1H, h1P]; exact hBig)
          (by rw [h1W]; exact hWU) (by rw [h1H]; exact hHU)
          (by rw [h1W]; omega) (by rw [h1H]; omega) (by omega) (by omega)
          (by rw [h1W]; omega) (by rw [h1H]; omega),
        if_pos (Or.inr ⟨by omega, by omega, Or.inl rfl⟩)]
    have hright : pixelAt fb2 (elem.x + elem.width - 1) (elem.y + j) = elem.color := by
      rw [hfb2,
        pixelAt_draw_rect fb1 elem.x elem.y elem.width elem.height elem.color
          (elem.x + elem.width - 1) (elem.y + j)
          (by rw [h1W, h1P]; exact hWP) (by rw [h1H, h1P]; exact hBig)
          (by rw [h1W]; exact hWU) (by rw [h1H]; exact hHU)
          (by rw [h1W]; omega) (by rw [h1H]; omega) (by omega) (by omega)
          (by rw [h1W]; omega) (by rw [h1H]; omega),
        if_pos (Or.inr ⟨by omega, by omega, Or.inr (by omega)⟩)]
    constructor
    · by_cases hfw : 0 < gauge_fill_width elem
      · rw [hrg, if_pos hfw,
          pixelAt_filled_rect fb2 (elem.x + 2) (elem.y + 2) (gauge_fill_width elem)
            (elem.height - 4) elem.color elem.x (elem.y + j)
            (by rw [h2W, h2P]; exact hWP) (by rw [h2H, h2P]; exact hBig)
            (by rw [h2W]; exact hWU) (by rw [h2H]; exact hHU)
            (by rw [h2W]; omega) (by rw [h2H]; omega)
            (by rw [h2W]; omega) (by rw [h2H]; omega),
          if_neg (by omega)]
        exact hleft
      · rw [hrg, if_neg hfw]; exact hleft
    · by_cases hfw : 0 < gauge_fill_width elem
      · rw [hrg, if_pos hfw,
          pixelAt_filled_rect fb2 (elem.x + 2) (elem.y + 2) (gauge_fill_width elem)
            (elem.height - 4) elem.color (elem.x + elem.width - 1) (elem.y + j)
            (by rw [h2W, h2P]; exact hWP) (by rw [h2H, h2P]; exact hBig)
            (by rw [h2W]; exact hWU) (by rw [h2H]; exact hHU)
            (by rw [h2W]; omega) (by rw [h2H]; omega)
            (by rw [h2W]; omega) (by rw [h2H]; omega),
          if_neg (by omega)]
        exact hright
      · rw [hrg, if_neg hfw]; exact hright

/-- Counterexample to C1 as stated: the drawn fill width is the truncation of
the product, not the product itself.  For a gauge of width 9 with value 64 on
the range 0..128 the clamped fraction is exactly 1/2 (all quantities are
exactly representable in binary float), the product with `width - 4 = 5` is
5/2, yet the code draws a fill exactly 2 pixels wide. -/
theorem render_gauge_fill_not_exact :
    gauge_fill_width ⟨DASH_ELEMENT_GAUGE, 0, 0, 9, 8, COLOR_GREEN, 64, 0, 128⟩ = 2 ∧
    qval (clamp_percentage (64 : ℚ) 0 128) * ((9 - 4 : ℕ) : ℚ) = 5 / 2 ∧
    ((2 : ℕ) : ℚ) ≠ 5 / 2 := by
  refine ⟨?_, ?_, by norm_num⟩
  · simp [gauge_fill_width, clamp_percentage, fdiv, fclamp01, U32]
    norm_num
    decide
  · simp [clamp_percentage, fdiv, fclamp01, qval]
    norm_num

/-- Demo gauge of the end-to-end test in C1: position (50,50), size 400x60,
value 75 on 0..100. -/
def gauge_demo : dash_element_t :=
  ⟨DASH_ELEMENT_GAUGE, 50, 50, 400, 60, COLOR_GREEN, 75, 0, 100⟩

/-- Concrete framebuffer large enough for the demo elements: 512x128 pixels,
pitch 2048 bytes. -/
def fb_demo : framebuffer_t := ⟨512, 128, 2048, fun _ => 0⟩

/-- Witness for C1: on the concrete demo gauge the fill width evaluates to
exactly `297 = trunc(0.75 * 396)` and the rendered image has the element color
at (52,52) and at (348,52), the last fill column, while (349,52) right after
the fill is black. -/
theorem render_gauge_spec_witness :
    gauge_fill_width gauge_demo = 297 ∧
    pixelAt (render_gauge gauge_demo fb_demo) 52 52 = COLOR_GREEN ∧
    pixelAt (render_gauge gauge_demo fb_demo) 348 52 = COLOR_GREEN ∧
    pixelAt (render_gauge gauge_demo fb_demo) 349 52 = COLOR_BLACK := by
  have h297 : gauge_fill_width gauge_demo = 297 := by
    simp [gauge_fill_width, gauge_demo, clamp_percentage, fdiv, fclamp01, U32]
    norm_num
    decide
  have hs := render_gauge_spec gauge_demo fb_demo (by norm_num [gauge_demo])
    (by decide) (by decide) (by decide) (by decide) (by decide) (by decide)
    (by decide) (by decide)
  refine ⟨h297, ?_, ?_, ?_⟩
  · exact hs.2.2.1 0 (by decide) 0 (by rw [h297]; decide)
  · exact hs.2.2.1 0 (by decide) 296 (by rw [h297]; decide)
  · exact hs.2.2.2.1 0 (by decide) 297 (by rw [h297]) (by decide)

/-! ## C6: value element rendering -/

/-- Counterexample to C6 as stated: at exactly 60 percent of range the code
compares with strict `>` and keeps the green indicator, while the claim puts
60 percent in the yellow zone.  (At value 60 on 0..100 the C float division
`60.0f / 100.0f` rounds to exactly the float literal `0.6f`, so the strict
comparison `percentage > 0.6f` is false in the C program as well.) -/
theorem value_indicator_boundary :
    value_indicator_color ⟨DASH_ELEMENT_VALUE, 0, 0, 40, 20, COLOR_CYAN, 60, 0, 100⟩ =
      COLOR_GREEN ∧
    COLOR_GREEN ≠ COLOR_YELLOW := by
  constructor
  · simp [value_indicator_color, fdiv]
    norm_num
  · decide

/-- Claim C6 (amended): for a value element with `max != min` drawn fully
inside the framebuffer, rendering paints the outline in the element color and
a 20-pixel-wide indicator bar inset by 5 pixels whose color is green when the
fraction `(value-min)/(max-min)` is at most 60 percent, yellow when it is
above 60 and at most 80 percent, and red above 80 percent; the pixel right of
the bar is background black. -/
theorem render_value_spec (elem : dash_element_t) (fb : framebuffer_t)
    (hne : elem.max_value ≠ elem.min_value)
    (hw : 31 ≤ elem.width) (hh : 11 ≤ elem.height)
    (hxw : elem.x + elem.width ≤ fb.width) (hyh : elem.y + elem.height ≤ fb.height)
    (hWP : fb.width ≤ fb.pitch / 4) (hBig : fb.height * (fb.pitch / 4) ≤ U32)
    (hWU : fb.width < U32) (hHU : fb.height < U32) :
    (4 / 5 < qval (fdiv (elem.value - elem.min_value) (elem.max_value - elem.min_value)) →
      value_indicator_color elem = COLOR_RED) ∧
    (3 / 5 < qval (fdiv (elem.value - elem.min_value) (elem.max_value - elem.min_value)) →
      qval (fdiv (elem.value - elem.min_value) (elem.max_value - elem.min_value)) ≤ 4 / 5 →
      value_indicator_color elem = COLOR_YELLOW) ∧
    (qval (fdiv (elem.value - elem.min_value) (elem.max_value - elem.min_value)) ≤ 3 / 5 →
      value_indicator_color elem = COLOR_GREEN) ∧
    (∀ j, j < elem.height - 10 → ∀ i, i < 20 →
      pixelAt (render_value elem fb) (elem.x + 5 + i) (elem.y + 5 + j) =
        value_indicator_color elem) ∧
    (∀ j, j < elem.height - 10 →
      pixelAt (render_value elem fb) (elem.x + 25) (elem.y + 5 + j) = COLOR_BLACK) ∧
    (∀ i, i < elem.width →
      pixelAt (render_value elem fb) (elem.x + i) elem.y = elem.color ∧
      pixelAt (render_value elem fb) (elem.x + i) (elem.y + elem.height - 1) = elem.color) ∧
    (∀ j, j < elem.height →
      pixelAt (render_value elem fb) elem.x (elem.y + j) = elem.color ∧
      pixelAt (render_value elem fb) (elem.x + elem.width - 1) (elem.y + j) = elem.color) := by
  have hwlt : elem.width < U32 := by omega
  have hhlt : elem.height < U32 := by omega
  have hq : fdiv (elem.value - elem.min_value) (elem.max_value - elem.min_value) =
      FloatVal.fin ((elem.value - elem.min_value) / (elem.max_value - elem.min_value)) := by
    unfold fdiv
    rw [if_neg (sub_ne_zero.mpr hne)]
  have hvic : value_indicator_color elem =
      if 4 / 5 < (elem.value - elem.min_value) / (elem.max_value - elem.min_value) then COLOR_RED
      else if 3 / 5 < (elem.value - elem.min_value) / (elem.max_value - elem.min_value) then
        COLOR_YELLOW
      else COLOR_GREEN := by
    unfold value_indicator_color
    rw [hq]
  have ex5 : (elem.x + 5) % U32 = elem.x + 5 := Nat.mod_eq_of_lt (by omega)
  have ey5 : (elem.y + 5) % U32 = elem.y + 5 := Nat.mod_eq_of_lt (by omega)
  have eh10 : (elem.height + (U32 - 10)) % U32 = elem.height - 10 :=
    u32_sub_small _ 10 (by omega) hhlt
  set fb1 := fb_draw_filled_rect fb elem.x elem.y elem.width elem.height COLOR_BLACK with hfb1
  set fb2 := fb_draw_rect fb1 elem.x elem.y elem.width elem.height elem.color with hfb2
  have h2W : fb2.width = fb.width := by
    rw [hfb2, fb_draw_rect_width, hfb1, fb_draw_filled_rect_width]
  have h2H : fb2.height = fb.height := by
    rw [hfb2, fb_draw_rect_height, hfb1, fb_draw_filled_rect_height]
  have h2P : fb2.pitch = fb.pitch := by
    rw [hfb2, fb_draw_rect_pitch, hfb1, fb_draw_filled_rect_pitch]
  have h1W : fb1.width = fb.width := by rw [hfb1, fb_draw_filled_rect_width]
  have h1H : fb1.height = fb.height := by rw [hfb1, fb_draw_filled_rect_height]
  have h1P : fb1.pitch = fb.pitch := by rw [hfb1, fb_draw_filled_rect_pitch]
  have hrv : render_value elem fb =
      fb_draw_filled_rect fb2 (elem.x + 5) (elem.y + 5) 20 (elem.height - 10)
        (value_indicator_color elem) := by
    rw [← ex5, ← ey5, ← eh10]
    rfl
  refine ⟨?_, ?_, ?_, ?_, ?_, ?_, ?_⟩
  · intro h
    rw [hq] at h
    rw [hvic, if_pos (by simpa [qval] using h)]
  · intro h1 h2
    rw [hq] at h1 h2
    simp only [qval] at h1 h2
    rw [hvic, if_neg (by exact not_lt.mpr h2), if_pos h1]
  · intro h
    rw [hq] at h
    simp only [qval] at h
    rw [hvic, if_neg (by exact not_lt.mpr (le_trans h (by norm_num))),
      if_neg (by exact not_lt.mpr h)]
  · -- indicator pixels
    intro j hj i hi
    rw [hrv,
      pixelAt_filled_rect fb2 (elem.x + 5) (elem.y + 5) 20 (elem.height - 10)
        (value_indicator_color elem) (elem.x + 5 + i) (elem.y + 5 + j)
        (by rw [h2W, h2P]; exact hWP) (by rw [h2H, h2P]; exact hBig)
        (by rw [h2W]; exact hWU) (by rw [h2H]; exact hHU)
        (by rw [h2W]; omega) (by rw [h2H]; omega)
        (by rw [h2W]; omega) (by rw [h2H]; omega),
      if_pos (by omega)]
  · -- pixel right of the indicator is black
    intro j hj
    rw [hrv,
      pixelAt_filled_rect fb2 (elem.x + 5) (elem.y + 5) 20 (elem.height - 10)
        (value_indicator_color elem) (elem.x + 25) (elem.y + 5 + j)
        (by rw [h2W, h2P]; exact hWP) (by rw [h2H, h2P]; exact hBig)
        (by rw [h2W]; exact hWU) (by rw [h2H]; exact hHU)
        (by rw [h2W]; omega) (by rw [h2H]; omega)
        (by rw [h2W]; omega) (by rw [h2H]; omega),
      if_neg (by omega), hfb2,
      pixelAt_draw_rect fb1 elem.x elem.y elem.width elem.height elem.color
        (elem.x + 25) (elem.y + 5 + j)
        (by rw [h1W, h1P]; exact hWP) (by rw [h1H, h1P]; exact hBig)
        (by rw [h1W]; exact hWU) (by rw [h1H]; exact hHU)
        (by rw [h1W]; omega) (by rw [h1H]; omega) (by omega) (by omega)
        (by rw [h1W]; omega) (by rw [h1H]; omega),
      if_neg (by rintro (⟨_, _, h | h⟩ | ⟨_, _, h | h⟩) <;> omega), hfb1,
      pixelAt_filled_rect fb elem.x elem.y elem.width elem.height COLOR_BLACK
        (elem.x + 25) (elem.y + 5 + j)
        hWP hBig hWU hHU (by omega) (by omega) (by omega) (by omega),
      if_pos (by omega)]
  · -- top and bottom edges
    intro i hiw
    constructor
    · rw [hrv,
        pixelAt_filled_rect fb2 (elem.x + 5) (elem.y + 5) 20 (elem.height - 10)
          (value_indicator_color elem) (elem.x + i) elem.y
          (by rw [h2W, h2P]; exact hWP) (by rw [h2H, h2P]; exact hBig)
          (by rw [h2W]; exact hWU) (by rw [h2H]; exact hHU)
          (by rw [h2W]; omega) (by rw [h2H]; omega)
          (by rw [h2W]; omega) (by rw [h2H]; omega),
        if_neg (by omega), hfb2,
        pixelAt_draw_rect fb1 elem.x elem.y elem.width elem.height elem.color
          (elem.x + i) elem.y
          (by rw [h1W, h1P]; exact hWP) (by rw [h1H, h1P]; exact hBig)
          (by rw [h1W]; exact hWU) (by rw [h1H]; exact hHU)
          (by rw [h1W]; omega) (by rw [h1H]; omega) (by omega) (by omega)
          (by rw [h1W]; omega) (by rw [h1H]; omega),
        if_pos (Or.inl ⟨by omega, by omega, Or.inl rfl⟩)]
    · rw [hrv,
        pixelAt_filled_rect fb2 (elem.x + 5) (elem.y + 5) 20 (elem.height - 10)
          (value_indicator_color elem) (elem.x + i) (elem.y + elem.height - 1)
          (by rw [h2W, h2P]; exact hWP) (by rw [h2H, h2P]; exact hBig)
          (by rw [h2W]; exact hWU) (by rw [h2H]; exact hHU)
          (by rw [h2W]; omega) (by rw [h2H]; omega)
          (by rw [h2W]; omega) (by rw [h2H]; omega),
        if_neg (by omega), hfb2,
        pixelAt_draw_rect fb1 elem.x elem.y elem.width elem.height elem.color
          (elem.x + i) (elem.y + elem.height - 1)
          (by rw [h1W, h1P]; exact hWP) (by rw [h1H, h1P]; exact hBig)
          (by rw [h1W]; exact hWU) (by rw [h1H]; exact hHU)
          (by rw [h1W]; omega) (by rw [h1H]; omega) (by omega) (by omega)
          (by rw [h1W]; omega) (by rw [h1H]; omega),
        if_pos (Or.inl ⟨by omega, by omega, Or.inr (by omega)⟩)]
  · -- left and right edges
    intro j hjh
    constructor
    · rw [hrv,
        pixelAt_filled_rect fb2 (elem.x + 5) (elem.y + 5) 20 (elem.height - 10)
          (value_indicator_color elem) elem.x (elem.y + j)
          (by rw [h2W, h2P]; exact hWP) (by rw [h2H, h2P]; exact hBig)
          (by rw [h2W]; exact hWU) (by rw [h2H]; exact hHU)
          (by rw [h2W]; omega) (by rw [h2H]; omega)
          (by rw [h2W]; omega) (by rw [h2H]; omega),
        if_neg (by omega), hfb2,
        pixelAt_draw_rect fb1 elem.x elem.y elem.width elem.height elem.color
          elem.x (elem.y + j)
          (by rw [h1W, h1P]; exact hWP) (by rw [h1H, h1P]; exact hBig)
          (by rw [h1W]; exact hWU) (by rw [h1H]; exact hHU)
          (by rw [h1W]; omega) (by rw [h1H]; omega) (by omega) (by omega)
          (by rw [h1W]; omega) (by rw [h1H]; omega),
        if_pos (Or.inr ⟨by omega, by omega, Or.inl rfl⟩)]
    · rw [hrv,
        pixelAt_filled_rect fb2 (elem.x + 5) (elem.y + 5) 20 (elem.height - 10)
          (value_indicator_color elem) (elem.x + elem.width - 1) (elem.y + j)
          (by rw [h2W, h2P]; exact hWP) (by rw [h2H, h2P]; exact hBig)
          (by rw [h2W]; exact hWU) (by rw [h2H]; exact hHU)
          (by rw [h2W]; omega) (by rw [h2H]; omega)
          (by rw [h2W]; omega) (by rw [h2H]; omega),
        if_neg (by omega), hfb2,
        pixelAt_draw_rect fb1 elem.x elem.y elem.width elem.height elem.color
          (elem.x + elem.width - 1) (elem.y + j)
          (by rw [h1W, h1P]; exact hWP) (by rw [h1H, h1P]; exact hBig)
          (by rw [h1W]; exact hWU) (by rw [h1H]; exact hHU)
          (by rw [h1W]; omega) (by rw [h1H]; omega) (by omega) (by omega)
          (by rw [h1W]; omega) (by rw [h1H]; omega),
        if_pos (Or.inr ⟨by omega, by omega, Or.inr (by omega)⟩)]

/-- Demo value element from the end-to-end test in C6: value 85 on 0..100,
85 percent of range. -/
def value_demo : dash_element_t :=
  ⟨DASH_ELEMENT_VALUE, 500, 50, 200, 60, COLOR_CYAN, 85, 0, 100⟩

/-- Wider concrete framebuffer for the value demo: 768x128 pixels, pitch
3072 bytes. -/
def fb_demo_wide : framebuffer_t := ⟨768, 128, 3072, fun _ => 0⟩

/-- Witness for C6: the demo value element at 85 percent gets a red indicator
and the rendered indicator pixel (505,55) is red while (525,55), right of the
20-pixel bar, is black. -/
theorem render_value_spec_witness :
    value_indicator_color value_demo = COLOR_RED ∧
    pixelAt (render_value value_demo fb_demo_wide) 505 55 = COLOR_RED ∧
    pixelAt (render_value value_demo fb_demo_wide) 525 55 = COLOR_BLACK := by
  have hs := render_value_spec value_demo fb_demo_wide (by norm_num [value_demo])
    (by decide) (by decide) (by decide) (by decide) (by decide) (by decide)
    (by decide) (by decide)
  have hred : value_indicator_color value_demo = COLOR_RED :=
    hs.1 (by norm_num [value_demo, fdiv, qval])
  refine ⟨hred, ?_, ?_⟩
  · have := hs.2.2.2.1 0 (by decide) 0 (by decide)
    rw [hred] at this
    exact this
  · exact hs.2.2.2.2.1 0 (by decide)

/-! ## C7: algebra of the clamped fraction -/

/-- Claim C7: for `min < max` the clamped fill fraction computed by the
renderer is monotone non-decreasing in the value, is exactly 0 at
`value = min`, and exactly 1 at `value = max`, for ranges of any sign. -/
theorem clamp_percentage_monotone (mn mx : ℚ) (hlt : mn < mx) :
    (∀ v1 v2 : ℚ, v1 ≤ v2 →
      qval (clamp_percentage v1 mn mx) ≤ qval (clamp_percentage v2 mn mx)) ∧
    clamp_percentage mn mn mx = FloatVal.fin 0 ∧
    clamp_percentage mx mn mx = FloatVal.fin 1 := by
  have hne : mx ≠ mn := ne_of_gt hlt
  have hpos : (0 : ℚ) < mx - mn := by linarith
  refine ⟨?_, ?_, ?_⟩
  · intro v1 v2 hv
    rw [clamp_percentage_eq_fin v1 mn mx hne, clamp_percentage_eq_fin v2 mn mx hne]
    simp only [qval]
    have hr : (v1 - mn) / (mx - mn) ≤ (v2 - mn) / (mx - mn) := by
      gcongr
    split_ifs <;> linarith
  · rw [clamp_percentage_eq_fin mn mn mx hne]
    norm_num
  · rw [clamp_percentage_eq_fin mx mn mx hne]
    rw [div_self (ne_of_gt hpos)]
    norm_num

/-- Witness for C7 on the sign-mixed example range `min = -15, max = 30` of
the claim: monotone between the values 0 and 7, exactly 0 at the minimum and
exactly 1 at the maximum. -/
theorem clamp_percentage_monotone_witness :
    qval (clamp_percentage 0 (-15) 30) ≤ qval (clamp_percentage 7 (-15) 30) ∧
    clamp_percentage (-15) (-15) 30 = FloatVal.fin 0 ∧
    clamp_percentage 30 (-15) 30 = FloatVal.fin 1 :=
  ⟨(clamp_percentage_monotone (-15) 30 (by norm_num)).1 0 7 (by norm_num),
   (clamp_percentage_monotone (-15) 30 (by norm_num)).2.1,
   (clamp_percentage_monotone (-15) 30 (by norm_num)).2.2⟩

/-! ## C3: element append and the 32-element capacity -/

/-- Filler element used to populate a dashboard to capacity. -/
def elem_filler : dash_element_t :=
  ⟨DASH_ELEMENT_LABEL, 0, 0, 10, 10, COLOR_WHITE, 0, 0, 1⟩

/-- Element whose append is attempted beyond capacity. -/
def elem_extra : dash_element_t :=
  ⟨DASH_ELEMENT_GAUGE, 1, 1, 20, 10, COLOR_RED, 5, 0, 10⟩

/-- Dashboard already holding 32 elements. -/
def full_dash : dashboard_t := ⟨"full", List.replicate 32 elem_filler⟩

/-- Claim C3, behavioural part, evaluated at the failing input: an append to
an empty dashboard stores the element, while the 33rd append to a full
dashboard returns the dashboard entirely unchanged (all 32 stored elements
and the count are preserved).  `dashboard_add_element` returns only the new
state, mirroring the `void` C function: no `CapacityExceeded` signal exists
anywhere in its type, so the rejection is silent. -/
theorem add_element_capacity :
    dashboard_add_element ⟨"d", []⟩ elem_extra = ⟨"d", [elem_extra]⟩ ∧
    dashboard_add_element full_dash elem_extra = full_dash ∧
    (dashboard_add_element full_dash elem_extra).elements.length = 32 := by
  refine ⟨rfl, ?_, ?_⟩
  · unfold dashboard_add_element
    rw [if_neg (by decide)]
  · unfold dashboard_add_element
    rw [if_neg (by decide)]
    decide

/-! ## C4: value update and index bounds -/

/-- Second element of the two-element demo dashboard. -/
def elem_second : dash_element_t :=
  ⟨DASH_ELEMENT_VALUE, 5, 5, 40, 20, COLOR_BLUE, 7, 0, 10⟩

/-- Claim C4, behavioural part, evaluated at the failing input: on a
two-element dashboard, updating index 1 replaces exactly that element value,
while updating index 2 (equal to the element count) returns the dashboard
entirely unchanged.  `dashboard_update_value` returns only the new state,
mirroring the `void` C function: no `IndexOutOfRange` signal exists anywhere
in its type, so the rejection is silent. -/
theorem update_value_bounds :
    dashboard_update_value ⟨"two", [elem_extra, elem_second]⟩ 1 9 =
      ⟨"two", [elem_extra, ⟨DASH_ELEMENT_VALUE, 5, 5, 40, 20, COLOR_BLUE, 9, 0, 10⟩]⟩ ∧
    dashboard_update_value ⟨"two", [elem_extra, elem_second]⟩ 2 9 =
      ⟨"two", [elem_extra, elem_second]⟩ := by
  constructor
  · unfold dashboard_update_value
    rw [dif_pos (by decide)]
    rfl
  · unfold dashboard_update_value
    rw [dif_neg (by decide)]

/-! ## C5: degenerate range divides by zero -/

/-- Claim C5 evaluated at the failing inputs: with `max == min` the code
divides by zero.  For a gauge of width 20 with `value > min` the IEEE result
is positive infinity, which the clamp maps to 1, so a full-width 16-pixel fill
is drawn — not the empty fill the claim requires; for a value element the
infinite percentage compares above `0.8f`, so the indicator is red — not the
green of percentage 0 the claim requires. -/
theorem degenerate_range_behavior :
    gauge_fill_width ⟨DASH_ELEMENT_GAUGE, 10, 10, 20, 10, COLOR_GREEN, 75, 50, 50⟩ = 16 ∧
    value_indicator_color ⟨DASH_ELEMENT_VALUE, 0, 0, 40, 20, COLOR_CYAN, 85, 0, 0⟩ = COLOR_RED ∧
    (16 : ℕ) ≠ 0 ∧ COLOR_RED ≠ COLOR_GREEN := by
  refine ⟨?_, ?_, by decide, by decide⟩
  · simp [gauge_fill_width, clamp_percentage, fdiv, fclamp01, U32]
    norm_num
    decide
  · simp [value_indicator_color, fdiv]

/-! ## C9: framebuffer negotiation -/

/-- Firmware response that acknowledges the request but reports a null
framebuffer address. -/
def firmware_ack_null : List ℕ → List ℕ :=
  fun l => (l.set 1 0x80000000).set 28 0

/-- Counterexample to C9 as stated: when the firmware acknowledges but returns
buffer address 0, `fb_init` does not fail — it succeeds and hands back a
handle with a null buffer address (and the pitch read from the untouched
response word 33, here 0).  The null-buffer check of the claim does not exist
in the code. -/
theorem fb_init_null_not_checked :
    fb_init firmware_ack_null 640 480 =
      some { width := 640, height := 480, pitch := 0, buffer_addr := 0 } ∧
    fb_init firmware_ack_null 640 480 ≠ none := by
  constructor
  · decide
  · decide

/-- Claim C9 (amended): `fb_init` fails exactly when word 1 of the firmware
response differs from the acknowledgement constant `0x80000000`; the returned
buffer address is never inspected.  On success the handle carries the
requested geometry, the pitch read back from response word 33, and the buffer
address of response word 28 with the top two bus-alias bits masked off. -/
theorem fb_init_spec (firmware : List ℕ → List ℕ) (width height : ℕ) :
    (fb_init firmware width height = none ↔
      (firmware (fb_request width height)).getD 1 0 ≠ mailbox_ack) ∧
    (∀ handle, fb_init firmware width height = some handle →
      handle.width = width ∧ handle.height = height ∧
      handle.pitch = (firmware (fb_request width height)).getD 33 0 ∧
      handle.buffer_addr = (firmware (fb_request width height)).getD 28 0 % 0x40000000) := by
  unfold fb_init mailbox_call_ok
  constructor
  · by_cases h : (firmware (fb_request width height)).getD 1 0 = mailbox_ack
    · simp [h]
    · simp [h]
  · intro handle hsome
    dsimp only at hsome
    split at hsome
    · rw [← Option.some.inj hsome]
      exact ⟨rfl, rfl, rfl, rfl⟩
    · exact absurd hsome (by simp)

/-- Firmware response that acknowledges and fills in pitch 2560 and a buffer
address carrying a bus-alias bit: `0x40001234`. -/
def firmware_ack_demo : List ℕ → List ℕ :=
  fun l => ((l.set 1 0x80000000).set 28 0x40001234).set 33 2560

/-- Witness for C9: with the demo firmware the negotiation does not fail, and
a returned handle carries pitch 2560 from response word 33 and the masked
buffer address `0x1234`. -/
theorem fb_init_spec_witness :
    (fb_init firmware_ack_demo 640 480 = none ↔
      (firmware_ack_demo (fb_request 640 480)).getD 1 0 ≠ mailbox_ack) ∧
    ({ width := 640, height := 480, pitch := 2560, buffer_addr := 0x1234 } : fb_handle).pitch =
      (firmware_ack_demo (fb_request 640 480)).getD 33 0 ∧
    ({ width := 640, height := 480, pitch := 2560, buffer_addr := 0x1234 } : fb_handle).buffer_addr =
      (firmware_ack_demo (fb_request 640 480)).getD 28 0 % 0x40000000 :=
  ⟨(fb_init_spec firmware_ack_demo 640 480).1,
   ((fb_init_spec firmware_ack_demo 640 480).2
     { width := 640, height := 480, pitch := 2560, buffer_addr := 0x1234 } (by decide)).2.2.1,
   ((fb_init_spec firmware_ack_demo 640 480).2
     { width := 640, height := 480, pitch := 2560, buffer_addr := 0x1234 } (by decide)).2.2.2⟩

/-! ## C8: idempotence of the full render

Every drawing operation of the renderer writes constants at indices that
depend only on the element data and the framebuffer geometry — nothing ever
reads the pixel buffer.  Such a transformer is captured by `ObliviousAt`:
restricted to framebuffers of a fixed geometry it preserves that geometry and
acts on every buffer index either as a constant write or as the identity,
uniformly in the incoming buffer.  Any such transformer is idempotent. -/

/-- Transformer that, on framebuffers of geometry `W x H` with pitch `P`,
preserves the geometry and writes a buffer-independent constant (or nothing)
at every index. -/
def ObliviousAt (W H P : ℕ) (T : framebuffer_t → framebuffer_t) : Prop :=
  ∃ g : ℕ → Option ℕ, ∀ fb : framebuffer_t, fb.width = W → fb.height = H → fb.pitch = P →
    ((T fb).width = W ∧ (T fb).height = H ∧ (T fb).pitch = P) ∧
    ∀ i, (T fb).buffer i = ((g i).getD (fb.buffer i))

theorem obliviousAt_congr {W H P : ℕ} {T S : framebuffer_t → framebuffer_t}
    (h : ∀ fb : framebuffer_t, fb.width = W → fb.height = H → fb.pitch = P → T fb = S fb)
    (hT : ObliviousAt W H P T) : ObliviousAt W H P S := by
  obtain ⟨g, hg⟩ := hT
  exact ⟨g, fun fb hW hH hP => by rw [← h fb hW hH hP]; exact hg fb hW hH hP⟩

theorem obliviousAt_comp {W H P : ℕ} {S T : framebuffer_t → framebuffer_t}
    (hS : ObliviousAt W H P S) (hT : ObliviousAt W H P T) :
    ObliviousAt W H P (fun fb => S (T fb)) := by
  obtain ⟨gS, hgS⟩ := hS
  obtain ⟨gT, hgT⟩ := hT
  refine ⟨fun i => match gS i with | some c => some c | none => gT i, ?_⟩
  intro fb hW hH hP
  obtain ⟨⟨tW, tH, tP⟩, tB⟩ := hgT fb hW hH hP
  obtain ⟨⟨sW, sH, sP⟩, sB⟩ := hgS (T fb) tW tH tP
  refine ⟨⟨sW, sH, sP⟩, fun i => ?_⟩
  rw [sB i, tB i]
  cases hgs : gS i with
  | some c => simp [hgs]
  | none => simp [hgs]

theorem obliviousAt_write_pixels (W H P : ℕ) (ps : List (ℕ × ℕ)) (c : ℕ) :
    ObliviousAt W H P (fun fb => write_pixels fb ps c) := by
  classical
  refine ⟨fun i => if ∃ p ∈ ps, i = (p.2 * (P / 4) + p.1) % U32 then some c else none, ?_⟩
  intro fb hW hH hP
  refine ⟨⟨by rw [write_pixels_width, hW], by rw [write_pixels_height, hH],
    by rw [write_pixels_pitch, hP]⟩, fun i => ?_⟩
  dsimp only
  by_cases hx : ∃ p ∈ ps, i = (p.2 * (P / 4) + p.1) % U32
  · rw [if_pos hx, write_pixels_buffer_hit fb ps c i (by rw [hP]; exact hx)]
    simp
  · rw [if_neg hx, write_pixels_buffer_miss fb ps c i
      (by rw [hP]; intro p hp he; exact hx ⟨p, hp, he⟩)]
    simp

theorem obliviousAt_draw_pixels (W H P : ℕ) (ps : List (ℕ × ℕ)) (c : ℕ) :
    ObliviousAt W H P (fun fb => draw_pixels fb ps c) := by
  classical
  refine ⟨fun i => if ∃ p ∈ ps, p.1 < W ∧ p.2 < H ∧ i = (p.2 * (P / 4) + p.1) % U32
    then some c else none, ?_⟩
  intro fb hW hH hP
  refine ⟨⟨by rw [draw_pixels_width, hW], by rw [draw_pixels_height, hH],
    by rw [draw_pixels_pitch, hP]⟩, fun i => ?_⟩
  dsimp only
  by_cases hx : ∃ p ∈ ps, p.1 < W ∧ p.2 < H ∧ i = (p.2 * (P / 4) + p.1) % U32
  · rw [if_pos hx, draw_pixels_buffer_hit fb ps c i (by rw [hP, hW, hH]; exact hx)]
    simp
  · rw [if_neg hx, draw_pixels_buffer_miss fb ps c i
      (by rw [hP, hW, hH]; intro p hp he; exact hx ⟨p, hp, he⟩)]
    simp

theorem obliviousAt_foldl {W H P : ℕ} {α : Type} (l : List α)
    (f : framebuffer_t → α → framebuffer_t)
    (hf : ∀ a, ObliviousAt W H P (fun fb => f fb a)) :
    ObliviousAt W H P (fun fb => l.foldl f fb) := by
  induction l with
  | nil => exact ⟨fun _ => none, fun fb hW hH hP => ⟨⟨hW, hH, hP⟩, fun i => rfl⟩⟩
  | cons a l ih =>
    exact obliviousAt_congr (fun fb hW hH hP => rfl) (obliviousAt_comp ih (hf a))

theorem obliviousAt_clear (W H P c : ℕ) :
    ObliviousAt W H P (fun fb => fb_clear fb c) := by
  refine obliviousAt_congr (fun fb hW hH hP => ?_)
    (obliviousAt_write_pixels W H P (clear_points W H) c)
  unfold fb_clear
  rw [hW, hH]

theorem obliviousAt_filled_rect (W H P x y w h c : ℕ) :
    ObliviousAt W H P (fun fb => fb_draw_filled_rect fb x y w h c) :=
  obliviousAt_draw_pixels W H P (filled_rect_points x y w h) c

theorem obliviousAt_rect (W H P x y w h c : ℕ) :
    ObliviousAt W H P (fun fb => fb_draw_rect fb x y w h c) :=
  obliviousAt_draw_pixels W H P (rect_points x y w h) c

theorem obliviousAt_render_gauge (W H P : ℕ) (elem : dash_element_t) :
    ObliviousAt W H P (fun fb => render_gauge elem fb) := by
  by_cases hfw : 0 < gauge_fill_width elem
  · refine obliviousAt_congr (fun fb hW hH hP => ?_)
      (obliviousAt_comp
        (obliviousAt_filled_rect W H P ((elem.x + 2) % U32) ((elem.y + 2) % U32)
          (gauge_fill_width elem) ((elem.height + (U32 - 4)) % U32) elem.color)
        (obliviousAt_comp
          (obliviousAt_rect W H P elem.x elem.y elem.width elem.height elem.color)
          (obliviousAt_filled_rect W H P elem.x elem.y elem.width elem.height COLOR_BLACK)))
    simp only [render_gauge, if_pos hfw]
  · refine obliviousAt_congr (fun fb hW hH hP => ?_)
      (obliviousAt_comp
        (obliviousAt_rect W H P elem.x elem.y elem.width elem.height elem.color)
        (obliviousAt_filled_rect W H P elem.x elem.y elem.width elem.height COLOR_BLACK))
    simp only [render_gauge, if_neg hfw]

theorem obliviousAt_render_label (W H P : ℕ) (elem : dash_element_t) :
    ObliviousAt W H P (fun fb => render_label elem fb) := by
  refine obliviousAt_congr (fun fb hW hH hP => ?_)
    (obliviousAt_comp
      (obliviousAt_rect W H P elem.x elem.y elem.width elem.height elem.color)
      (obliviousAt_filled_rect W H P elem.x elem.y elem.width elem.height COLOR_BLACK))
  simp only [render_label]

theorem obliviousAt_render_value (W H P : ℕ) (elem : dash_element_t) :
    ObliviousAt W H P (fun fb => render_value elem fb) := by
  refine obliviousAt_congr (fun fb hW hH hP => ?_)
    (obliviousAt_comp
      (obliviousAt_filled_rect W H P ((elem.x + 5) % U32) ((elem.y + 5) % U32)
        20 ((elem.height + (U32 - 10)) % U32) (value_indicator_color elem))
      (obliviousAt_comp
        (obliviousAt_rect W H P elem.x elem.y elem.width elem.height elem.color)
        (obliviousAt_filled_rect W H P elem.x elem.y elem.width elem.height COLOR_BLACK)))
  simp only [render_value]

theorem obliviousAt_render_graph (W H P : ℕ) (elem : dash_element_t) :
    ObliviousAt W H P (fun fb => render_graph elem fb) := by
  refine obliviousAt_congr (fun fb hW hH hP => ?_)
    (obliviousAt_comp
      (obliviousAt_foldl (List.range 3)
        (fun acc i =>
          draw_pixels acc (graph_line_points elem.x elem.y elem.width elem.height (i + 1))
            COLOR_GRAY)
        (fun i => obliviousAt_draw_pixels W H P
          (graph_line_points elem.x elem.y elem.width elem.height (i + 1)) COLOR_GRAY))
      (obliviousAt_comp
        (obliviousAt_rect W H P elem.x elem.y elem.width elem.height elem.color)
        (obliviousAt_filled_rect W H P elem.x elem.y elem.width elem.height COLOR_BLACK)))
  simp only [render_graph]

theorem obliviousAt_render_element (W H P : ℕ) (elem : dash_element_t) :
    ObliviousAt W H P (fun fb => render_element elem fb) := by
  cases htype : elem.type with
  | DASH_ELEMENT_GAUGE =>
    exact obliviousAt_congr (fun fb hW hH hP => by simp only [render_element, htype])
      (obliviousAt_render_gauge W H P elem)
  | DASH_ELEMENT_LABEL =>
    exact obliviousAt_congr (fun fb hW hH hP => by simp only [render_element, htype])
      (obliviousAt_render_label W H P elem)
  | DASH_ELEMENT_VALUE =>
    exact obliviousAt_congr (fun fb hW hH hP => by simp only [render_element, htype])
      (obliviousAt_render_value W H P elem)
  | DASH_ELEMENT_GRAPH =>
    exact obliviousAt_congr (fun fb hW hH hP => by simp only [render_element, htype])
      (obliviousAt_render_graph W H P elem)

theorem obliviousAt_dashboard_render (W H P : ℕ) (dash : dashboard_t) :
    ObliviousAt W H P (fun fb => dashboard_render dash fb) := by
  refine obliviousAt_congr (fun fb hW hH hP => ?_)
    (obliviousAt_comp
      (obliviousAt_foldl dash.elements (fun acc elem => render_element elem acc)
        (fun elem => obliviousAt_render_element W H P elem))
      (obliviousAt_clear W H P COLOR_BLACK))
  simp only [dashboard_render]

theorem obliviousAt_idem {W H P : ℕ} {T : framebuffer_t → framebuffer_t}
    (h : ObliviousAt W H P T) (fb : framebuffer_t)
    (hW : fb.width = W) (hH : fb.height = H) (hP : fb.pitch = P) : T (T fb) = T fb := by
  obtain ⟨g, hg⟩ := h
  obtain ⟨⟨tW, tH, tP⟩, tB⟩ := hg fb hW hH hP
  obtain ⟨⟨sW, sH, sP⟩, sB⟩ := hg (T fb) tW tH tP
  apply framebuffer_t.ext
  · rw [sW, tW]
  · rw [sH, tH]
  · rw [sP, tP]
  · funext i
    rw [sB i, tB i]
    cases hgi : g i with
    | some c => simp [hgi]
    | none => simp [hgi]

/-- Claim C8: rendering is idempotent given unchanged element state — the
render clears the full frame and redraws every element from the dashboard
alone, reading nothing from the previous pixel contents, so rendering twice
in succession yields a framebuffer identical to rendering once. -/
theorem dashboard_render_idempotent (dash : dashboard_t) (fb : framebuffer_t) :
    dashboard_render dash (dashboard_render dash fb) = dashboard_render dash fb :=
  obliviousAt_idem (obliviousAt_dashboard_render fb.width fb.height fb.pitch dash) fb rfl rfl rfl

/-! ## C2: clipped pixel writes -/

/-- Claim C2: `set_pixel` is a no-op (the framebuffer, hence the entire
buffer, is returned unchanged) whenever `x >= width` or `y >= height`, and for
in-bounds coordinates it stores the color at buffer index
`y * (pitch / 4) + x` (computed in uint32 arithmetic) and changes no other
index. -/
theorem set_pixel_spec (fb : framebuffer_t) (x y color : ℕ) :
    (fb.width ≤ x ∨ fb.height ≤ y → fb_draw_pixel fb x y color = fb) ∧
    (x < fb.width → y < fb.height →
      (fb_draw_pixel fb x y color).buffer ((y * (fb.pitch / 4) + x) % U32) = color ∧
      ∀ idx, idx ≠ (y * (fb.pitch / 4) + x) % U32 →
        (fb_draw_pixel fb x y color).buffer idx = fb.buffer idx) := by
  refine ⟨fun hout => ?_, fun hx hy => ⟨fb_draw_pixel_buffer_self fb x y color hx hy, ?_⟩⟩
  · unfold fb_draw_pixel
    exact if_pos hout
  · intro idx hidx
    exact fb_draw_pixel_buffer_other fb x y color idx (fun hcon => hidx hcon.2.2)

/-- Witness for C2 on a concrete 4x3 framebuffer with pitch 16: the write at
`(width, 0)` leaves the framebuffer unchanged, the write at
`(width-1, height-1)` stores the color at index `2 * 4 + 3 = 11`, and an
unrelated index is untouched. -/
theorem set_pixel_spec_witness :
    fb_draw_pixel ⟨4, 3, 16, fun _ => 0⟩ 4 0 7 = ⟨4, 3, 16, fun _ => 0⟩ ∧
    (fb_draw_pixel ⟨4, 3, 16, fun _ => 0⟩ 3 2 7).buffer ((2 * (16 / 4) + 3) % U32) = 7 ∧
    (fb_draw_pixel ⟨4, 3, 16, fun _ => 0⟩ 3 2 7).buffer 5 = 0 :=
  ⟨(set_pixel_spec ⟨4, 3, 16, fun _ => 0⟩ 4 0 7).1 (Or.inl (by decide)),
   ((set_pixel_spec ⟨4, 3, 16, fun _ => 0⟩ 3 2 7).2 (by decide) (by decide)).1,
   (((set_pixel_spec ⟨4, 3, 16, fun _ => 0⟩ 3 2 7).2 (by decide) (by decide)).2 5
     (by decide)).trans rfl⟩

/-! ## C10: rectangle primitives never write outside the clipped region -/

/-- Claim C10: for arbitrary arguments, including zero extents and wrapping
32-bit coordinate sums, `fb_draw_rect` and `fb_draw_filled_rect` change the
buffer only at indices addressed by some in-bounds pixel `(px, py)` with
`px < width` and `py < height`: every index not of that form keeps its
previous content. -/
theorem draw_rect_ops_clipped (fb : framebuffer_t) (x y w h color idx : ℕ)
    (hidx : ∀ px, px < fb.width → ∀ py, py < fb.height →
      idx ≠ (py * (fb.pitch / 4) + px) % U32) :
    (fb_draw_rect fb x y w h color).buffer idx = fb.buffer idx ∧
    (fb_draw_filled_rect fb x y w h color).buffer idx = fb.buffer idx := by
  constructor
  · exact draw_pixels_buffer_miss fb _ color idx
      (fun p _ hcon => hidx p.1 hcon.1 p.2 hcon.2.1 hcon.2.2)
  · exact draw_pixels_buffer_miss fb _ color idx
      (fun p _ hcon => hidx p.1 hcon.1 p.2 hcon.2.1 hcon.2.2)

/-- Witness for C10 on a concrete 2x2 framebuffer with pitch 16: even with a
wrapping x origin of `2^32 - 1` the row-padding index 2 is untouched by both
rectangle primitives. -/
theorem draw_rect_ops_clipped_witness :
    (fb_draw_rect ⟨2, 2, 16, fun _ => 3⟩ (U32 - 1) 0 5 2 9).buffer 2 = 3 ∧
    (fb_draw_filled_rect ⟨2, 2, 16, fun _ => 3⟩ (U32 - 1) 0 5 2 9).buffer 2 = 3 :=
  ⟨(draw_rect_ops_clipped ⟨2, 2, 16, fun _ => 3⟩ (U32 - 1) 0 5 2 9 2 (by decide)).1.trans rfl,
   (draw_rect_ops_clipped ⟨2, 2, 16, fun _ => 3⟩ (U32 - 1) 0 5 2 9 2 (by decide)).2.trans rfl⟩
